import Mathlib

/-!
Verification of the event-sourced digital-wallet engine.

The definitions below are a shallow embedding of the Go sources:
- the wallet engine `internal/engine/wallet.go` (`WalletEngine`,
  `ExecuteWithContext`, `applyEvent`, `ApplyEvents`, `SetBalance`,
  `GetBalance`, `GetTotalBalance`, `InitializeFromEventStore`),
- the event store `internal/eventstore/store.go` (`AppendBatch`),
- the event codec `internal/domain/events.go` (`SerializeEvent`,
  `DeserializeEvent`).

Go's `map[string]int64` is modelled as an association list in which an
absent key reads as balance 0 (Go's zero value) and assignment replaces
the first (in a Go map: the unique) entry with the given key.
Go's `map[string]bool` used as a set is modelled as a `List String`
with insert-if-absent.  Amounts are `int64` cents, modelled as `Int`.
-/

/-- A money-transfer command (`domain.TransferCommand`). -/
structure TransferCommand where
  transactionID : String
  fromAccount : String
  toAccount : String
  amount : Int
  deriving DecidableEq, Repr

/-- The tagged union of domain events (`domain.MoneyDeducted`,
`domain.MoneyCredited`, `domain.TransactionFailed`). -/
inductive Event where
  | moneyDeducted (transactionID account : String) (amount : Int)
  | moneyCredited (transactionID account : String) (amount : Int)
  | transactionFailed (transactionID fromAccount reason : String)
  deriving DecidableEq, Repr

/-- Reading a Go `map[string]int64`: the first entry with the key wins,
an absent key yields the zero value 0 (`e.balances[account]`). -/
def lookupBalance : List (String × Int) → String → Int
  | [], _ => 0
  | p :: ps, a => if p.1 = a then p.2 else lookupBalance ps a

/-- Writing a Go `map[string]int64`: replace the entry with the key, or
append a new entry (`e.balances[account] = v`). -/
def setBalance : List (String × Int) → String → Int → List (String × Int)
  | [], a, v => [(a, v)]
  | p :: ps, a, v => if p.1 = a then (a, v) :: ps else p :: setBalance ps a v

/-- Inserting into a Go `map[string]bool` used as a set
(`e.processedTxns[txid] = true`). -/
def insertTxn (processed : List String) (txid : String) : List String :=
  if txid ∈ processed then processed else txid :: processed

/-- The state owned by the wallet engine (`engine.WalletEngine`):
`balances` maps account to balance in cents, `processedTxns` is the
idempotency set of observed transaction ids. -/
structure WalletEngine where
  balances : List (String × Int)
  processedTxns : List String
  deriving DecidableEq, Repr

/-- `engine.NewWalletEngine`: empty balances, empty processed set. -/
def NewWalletEngine : WalletEngine :=
  { balances := [], processedTxns := [] }

/-- `(e *WalletEngine) ExecuteWithContext`: validates a command against the
current state and produces the event vector, without mutating state.  The
returned triple mirrors the Go method: the receiver (unchanged by every
return path — the method only ever takes the read lock), the produced
events, and the returned `error` (always `nil`, modelled as `none`). -/
def ExecuteWithContext (e : WalletEngine) (cmd : TransferCommand) :
    WalletEngine × List Event × Option String :=
  if cmd.transactionID ∈ e.processedTxns then
    (e, [], none)
  else if cmd.amount ≤ 0 then
    (e, [Event.transactionFailed cmd.transactionID cmd.fromAccount
          "amount must be positive"], none)
  else if cmd.fromAccount = cmd.toAccount then
    (e, [Event.transactionFailed cmd.transactionID cmd.fromAccount
          "cannot transfer to same account"], none)
  else if lookupBalance e.balances cmd.fromAccount < cmd.amount then
    (e, [Event.transactionFailed cmd.transactionID cmd.fromAccount
          "insufficient funds"], none)
  else
    (e, [Event.moneyDeducted cmd.transactionID cmd.fromAccount cmd.amount,
         Event.moneyCredited cmd.transactionID cmd.toAccount cmd.amount], none)

/-- `(e *WalletEngine) Execute`: delegates to `ExecuteWithContext` with a
background context. -/
def Execute (e : WalletEngine) (cmd : TransferCommand) :
    WalletEngine × List Event × Option String :=
  ExecuteWithContext e cmd

/-- `(e *WalletEngine) applyEvent`: updates the internal state for one
event.  Deduction subtracts from the account and marks the transaction id
processed; credit adds to the account; a failure only marks the id. -/
def applyEvent (e : WalletEngine) : Event → WalletEngine
  | Event.moneyDeducted txid acct amt =>
    { balances := setBalance e.balances acct (lookupBalance e.balances acct - amt),
      processedTxns := insertTxn e.processedTxns txid }
  | Event.moneyCredited _ acct amt =>
    { e with balances := setBalance e.balances acct (lookupBalance e.balances acct + amt) }
  | Event.transactionFailed txid _ _ =>
    { e with processedTxns := insertTxn e.processedTxns txid }

/-- `(e *WalletEngine) ApplyEvents`: applies a batch of events in order. -/
def ApplyEvents (e : WalletEngine) (events : List Event) : WalletEngine :=
  events.foldl applyEvent e

/-- One pass of `handleCommand`'s state pipeline for a single command:
`ExecuteWithContext` produces the events, which are then applied in order
with `applyEvent`.  Returns the new state and the events appended to the
log by this command. -/
def processCommand (e : WalletEngine) (cmd : TransferCommand) :
    WalletEngine × List Event :=
  (ApplyEvents e (ExecuteWithContext e cmd).2.1, (ExecuteWithContext e cmd).2.1)

/-- Processing a finite stream of commands in order; the second component
is the event log produced (the concatenation of each command's batch, in
processing order, as persisted by `AppendBatch`). -/
def processCommands (e : WalletEngine) : List TransferCommand → WalletEngine × List Event
  | [] => (e, [])
  | cmd :: rest =>
    let r := processCommand e cmd
    let rr := processCommands r.1 rest
    (rr.1, r.2 ++ rr.2)

/-- `(e *WalletEngine) GetBalance`. -/
def GetBalance (e : WalletEngine) (account : String) : Int :=
  lookupBalance e.balances account

/-- `(e *WalletEngine) SetBalance` (test/initialization injection). -/
def SetBalance (e : WalletEngine) (account : String) (balance : Int) : WalletEngine :=
  { e with balances := setBalance e.balances account balance }

/-- Sum of the entries of a balances map (the loop of `GetTotalBalance`). -/
def sumBalances (bs : List (String × Int)) : Int :=
  (bs.map Prod.snd).sum

/-- `(e *WalletEngine) GetTotalBalance`: sum of all account balances. -/
def GetTotalBalance (e : WalletEngine) : Int :=
  sumBalances e.balances

/-- Injecting pre-existing balances into an engine by a sequence of
`SetBalance` calls (the initialization admitted by the design). -/
def injectBalances (e : WalletEngine) (setters : List (String × Int)) : WalletEngine :=
  setters.foldl (fun s p => SetBalance s p.1 p.2) e

/-- `(e *WalletEngine) InitializeFromEventStore`, state part: replay a
loaded event log in order onto the engine with `applyEvent`. -/
def InitializeFromEventStore (e : WalletEngine) (loaded : List Event) : WalletEngine :=
  ApplyEvents e loaded

-- Basic lemmas about the balance map.

theorem sum_setBalance (bs : List (String × Int)) (a : String) (v : Int) :
    sumBalances (setBalance bs a v) = sumBalances bs - lookupBalance bs a + v := by
  induction bs with
  | nil => simp [sumBalances, setBalance, lookupBalance]
  | cons p ps ih =>
    by_cases h : p.1 = a
    · simp [sumBalances, setBalance, lookupBalance, h]
      ring
    · simp [sumBalances, setBalance, lookupBalance, h] at ih ⊢
      omega

/-- Every entry of a balances map is nonnegative. -/
def allNonneg (bs : List (String × Int)) : Prop :=
  ∀ p ∈ bs, 0 ≤ p.2

instance (bs : List (String × Int)) : Decidable (allNonneg bs) := by
  unfold allNonneg
  infer_instance

theorem lookupBalance_nonneg (bs : List (String × Int)) (a : String)
    (h : allNonneg bs) : 0 ≤ lookupBalance bs a := by
  induction bs with
  | nil => simp [lookupBalance]
  | cons p ps ih =>
    simp only [lookupBalance]
    split
    · exact h p (by simp)
    · exact ih (fun q hq => h q (by simp [hq]))

theorem sum_applyEvent (e : WalletEngine) (ev : Event) :
    sumBalances (applyEvent e ev).balances
      = sumBalances e.balances +
        (match ev with
         | Event.moneyDeducted _ _ amt => -amt
         | Event.moneyCredited _ _ amt => amt
         | Event.transactionFailed _ _ _ => 0) := by
  cases ev <;> simp [applyEvent, sum_setBalance] <;> ring

theorem total_processCommand (e : WalletEngine) (cmd : TransferCommand) :
    GetTotalBalance (processCommand e cmd).1 = GetTotalBalance e := by
  unfold GetTotalBalance processCommand ApplyEvents ExecuteWithContext
  split_ifs <;> simp [List.foldl, sum_applyEvent]

theorem allNonneg_setBalance (bs : List (String × Int)) (a : String) (v : Int)
    (hbs : allNonneg bs) (hv : 0 ≤ v) : allNonneg (setBalance bs a v) := by
  induction bs with
  | nil =>
    intro p hp
    simp [setBalance] at hp
    simp [hp, hv]
  | cons q qs ih =>
    intro p hp
    simp only [setBalance] at hp
    split at hp
    · rcases List.mem_cons.1 hp with h | h
      · simp [h, hv]
      · exact hbs p (by simp [h])
    · rcases List.mem_cons.1 hp with h | h
      · exact hbs p (by simp [h])
      · exact ih (fun r hr => hbs r (by simp [hr])) p h

/-- C1: processing a finite sequence of transfer commands from any initial
engine state (each command handled by Execute followed by applying the
returned events with applyEvent) conserves the sum of all account
balances. -/
theorem conservation_total (e : WalletEngine) (cmds : List TransferCommand) :
    GetTotalBalance (processCommands e cmds).1 = GetTotalBalance e := by
  induction cmds generalizing e with
  | nil => rfl
  | cons c rest ih =>
    simp only [processCommands]
    rw [ih, total_processCommand]

/-- C10: ExecuteWithContext is read-only on the engine: for every command
and every engine state it returns a nil error and leaves both the balances
map and the processed-transactions set exactly as they were. -/
theorem execute_readonly (e : WalletEngine) (cmd : TransferCommand) :
    (ExecuteWithContext e cmd).1.balances = e.balances ∧
    (ExecuteWithContext e cmd).1.processedTxns = e.processedTxns ∧
    (ExecuteWithContext e cmd).2.2 = none := by
  unfold ExecuteWithContext
  split_ifs <;> simp

/-- C2: for a command whose transaction id is not yet processed, validation
runs in this exact order with first failure winning: non-positive amount,
then self-transfer, then insufficient funds, each producing exactly one
TransactionFailed event with the corresponding reason. -/
theorem validation_order (e : WalletEngine) (cmd : TransferCommand)
    (h : cmd.transactionID ∉ e.processedTxns) :
    (cmd.amount ≤ 0 →
      (ExecuteWithContext e cmd).2.1 =
        [Event.transactionFailed cmd.transactionID cmd.fromAccount
          "amount must be positive"]) ∧
    (0 < cmd.amount → cmd.fromAccount = cmd.toAccount →
      (ExecuteWithContext e cmd).2.1 =
        [Event.transactionFailed cmd.transactionID cmd.fromAccount
          "cannot transfer to same account"]) ∧
    (0 < cmd.amount → cmd.fromAccount ≠ cmd.toAccount →
      lookupBalance e.balances cmd.fromAccount < cmd.amount →
      (ExecuteWithContext e cmd).2.1 =
        [Event.transactionFailed cmd.transactionID cmd.fromAccount
          "insufficient funds"]) := by
  refine ⟨fun h1 => ?_, fun h1 h2 => ?_, fun h1 h2 h3 => ?_⟩
  · simp [ExecuteWithContext, h, h1]
  · simp [ExecuteWithContext, h, h2, not_le.mpr h1]
  · simp [ExecuteWithContext, h, h2, h3, not_le.mpr h1]

/-- Witness for `validation_order` at a concrete engine and command. -/
theorem validation_order_witness :
    ("t1" ∉ (WalletEngine.mk [("alice", 100)] []).processedTxns) ∧
    ((-5 : Int) ≤ 0) ∧
    (ExecuteWithContext (WalletEngine.mk [("alice", 100)] [])
        (TransferCommand.mk "t1" "alice" "bob" (-5))).2.1 =
      [Event.transactionFailed "t1" "alice" "amount must be positive"] :=
  ⟨by decide, by decide,
    (validation_order (WalletEngine.mk [("alice", 100)] [])
      (TransferCommand.mk "t1" "alice" "bob" (-5)) (by decide)).1 (by decide)⟩

-- Lemmas about the processed-transaction set.

theorem mem_insertTxn_self (l : List String) (txid : String) :
    txid ∈ insertTxn l txid := by
  unfold insertTxn
  split
  · assumption
  · simp

theorem mem_insertTxn_of_mem (l : List String) (x y : String) (h : x ∈ l) :
    x ∈ insertTxn l y := by
  unfold insertTxn
  split
  · exact h
  · simp [h]

/-- The duplicate branch of ExecuteWithContext: an already-processed
transaction id yields an empty event vector, no error and the state
unchanged. -/
theorem exec_duplicate (e : WalletEngine) (cmd : TransferCommand)
    (h : cmd.transactionID ∈ e.processedTxns) :
    ExecuteWithContext e cmd = (e, [], none) := by
  simp [ExecuteWithContext, h]

/-- After processing any command, its transaction id is in the processed
set (it was either already there, or has been marked by the applied
TransactionFailed or MoneyDeducted event). -/
theorem txid_mem_after (e : WalletEngine) (cmd : TransferCommand) :
    cmd.transactionID ∈ (processCommand e cmd).1.processedTxns := by
  unfold processCommand ExecuteWithContext
  split_ifs with h1 h2 h3 h4
  · simpa [ApplyEvents] using h1
  · simpa [ApplyEvents, applyEvent] using mem_insertTxn_self e.processedTxns cmd.transactionID
  · simpa [ApplyEvents, applyEvent] using mem_insertTxn_self e.processedTxns cmd.transactionID
  · simpa [ApplyEvents, applyEvent] using mem_insertTxn_self e.processedTxns cmd.transactionID
  · simpa [ApplyEvents, applyEvent] using mem_insertTxn_self e.processedTxns cmd.transactionID

/-- C4: processing is idempotent: a command whose transaction id is already
processed yields an empty event vector, no error and an unchanged state,
and processing the stream [c, c] is identical (final state and log) to
processing the stream [c] — the duplicate appends nothing to the log. -/
theorem duplicate_idempotent :
    (∀ (e : WalletEngine) (cmd : TransferCommand),
      cmd.transactionID ∈ e.processedTxns →
      ExecuteWithContext e cmd = (e, [], none)) ∧
    (∀ (e : WalletEngine) (c : TransferCommand),
      processCommands e [c, c] = processCommands e [c]) := by
  refine ⟨exec_duplicate, fun e c => ?_⟩
  have h2 : ExecuteWithContext (processCommand e c).1 c = ((processCommand e c).1, [], none) :=
    exec_duplicate _ c (txid_mem_after e c)
  simp only [processCommands, processCommand] at h2 ⊢
  rw [h2]
  simp [ApplyEvents]

/-- Witness for `duplicate_idempotent` at a concrete engine and command. -/
theorem duplicate_idempotent_witness :
    ("tx" ∈ (WalletEngine.mk [("a", 7)] ["tx"]).processedTxns) ∧
    ExecuteWithContext (WalletEngine.mk [("a", 7)] ["tx"])
        (TransferCommand.mk "tx" "a" "b" 3) =
      (WalletEngine.mk [("a", 7)] ["tx"], [], none) :=
  ⟨by decide,
    duplicate_idempotent.1 (WalletEngine.mk [("a", 7)] ["tx"])
      (TransferCommand.mk "tx" "a" "b" 3) (by decide)⟩

/-- In a log, every MoneyDeducted event is immediately followed by the
MoneyCredited event of the same transaction id and amount (so the
deduction precedes the credit of its transaction). -/
def dedPaired : List Event → Prop
  | [] => True
  | Event.moneyDeducted txid _ amt :: rest =>
    (match rest with
     | Event.moneyCredited txid2 _ amt2 :: _ => txid2 = txid ∧ amt2 = amt
     | _ => False) ∧ dedPaired rest
  | _ :: rest => dedPaired rest

/-- Prepending the event batch of one command to a paired log keeps it
paired: the batch is empty, a single failure, or a deduct-credit pair. -/
theorem dedPaired_exec_append (e : WalletEngine) (cmd : TransferCommand)
    (l : List Event) (hl : dedPaired l) :
    dedPaired ((ExecuteWithContext e cmd).2.1 ++ l) := by
  unfold ExecuteWithContext
  split_ifs <;> simpa [dedPaired] using hl

/-- C3: a non-duplicate command passing all three validation rules yields
exactly the vector [MoneyDeducted, MoneyCredited] — deduction first — and
consequently in any log produced by processing commands, every
MoneyDeducted is immediately followed by the MoneyCredited of the same
transaction id and amount. -/
theorem success_emits_pair :
    (∀ (e : WalletEngine) (cmd : TransferCommand),
      cmd.transactionID ∉ e.processedTxns →
      0 < cmd.amount →
      cmd.fromAccount ≠ cmd.toAccount →
      cmd.amount ≤ lookupBalance e.balances cmd.fromAccount →
      (ExecuteWithContext e cmd).2.1 =
        [Event.moneyDeducted cmd.transactionID cmd.fromAccount cmd.amount,
         Event.moneyCredited cmd.transactionID cmd.toAccount cmd.amount]) ∧
    (∀ (e : WalletEngine) (cmds : List TransferCommand),
      dedPaired (processCommands e cmds).2) := by
  constructor
  · intro e cmd h1 h2 h3 h4
    simp [ExecuteWithContext, h1, h3, not_le.mpr h2, not_lt.mpr h4]
  · intro e cmds
    induction cmds generalizing e with
    | nil => trivial
    | cons c rest ih =>
      simp only [processCommands]
      exact dedPaired_exec_append e c _ (ih (processCommand e c).1)

/-- Witness for `success_emits_pair` at a concrete engine and command. -/
theorem success_emits_pair_witness :
    ("t9" ∉ (WalletEngine.mk [("alice", 100)] ["t0"]).processedTxns) ∧
    (0 : Int) < 40 ∧ "alice" ≠ "bob" ∧
    ((40 : Int) ≤ lookupBalance (WalletEngine.mk [("alice", 100)] ["t0"]).balances "alice") ∧
    (ExecuteWithContext (WalletEngine.mk [("alice", 100)] ["t0"])
        (TransferCommand.mk "t9" "alice" "bob" 40)).2.1 =
      [Event.moneyDeducted "t9" "alice" 40, Event.moneyCredited "t9" "bob" 40] :=
  ⟨by decide, by decide, by decide, by decide,
    success_emits_pair.1 (WalletEngine.mk [("alice", 100)] ["t0"])
      (TransferCommand.mk "t9" "alice" "bob" 40)
      (by decide) (by decide) (by decide) (by decide)⟩

/-- Applying any prefix of the event batch produced by ExecuteWithContext
preserves non-negativity of every balance: the insufficient-funds check
guarantees the deduction cannot drive the paying account below zero, and
the credit only adds a positive amount. -/
theorem allNonneg_exec_take (e : WalletEngine) (cmd : TransferCommand) (k : Nat)
    (h : allNonneg e.balances) :
    allNonneg (ApplyEvents e (List.take k (ExecuteWithContext e cmd).2.1)).balances := by
  unfold ExecuteWithContext
  split_ifs with h1 h2 h3 h4
  · simpa [ApplyEvents] using h
  · cases k <;> simpa [ApplyEvents, applyEvent] using h
  · cases k <;> simpa [ApplyEvents, applyEvent] using h
  · cases k <;> simpa [ApplyEvents, applyEvent] using h
  · have hbal : cmd.amount ≤ lookupBalance e.balances cmd.fromAccount := not_lt.mp h4
    have hded : allNonneg (setBalance e.balances cmd.fromAccount
        (lookupBalance e.balances cmd.fromAccount - cmd.amount)) :=
      allNonneg_setBalance _ _ _ h (by omega)
    match k with
    | 0 => simpa [ApplyEvents] using h
    | 1 => simpa [ApplyEvents, applyEvent] using hded
    | (n + 2) =>
      simp only [List.take, List.take_nil, ApplyEvents, List.foldl, applyEvent]
      apply allNonneg_setBalance _ _ _ hded
      have := lookupBalance_nonneg _ cmd.toAccount hded
      omega

/-- Non-negativity is preserved by a whole command in the unbounded model. -/
theorem allNonneg_processCommand (e : WalletEngine) (cmd : TransferCommand)
    (h : allNonneg e.balances) : allNonneg (processCommand e cmd).1.balances := by
  have hk := allNonneg_exec_take e cmd (ExecuteWithContext e cmd).2.1.length h
  simpa [processCommand, List.take_length] using hk

/-- `math.MaxInt64`, the largest `int64` value (2 to the 63rd minus 1). -/
def int64Max : Int := 9223372036854775807

/-- Go's wrapping `int64` arithmetic: reduce an integer to the two's
complement representative in [-2 to the 63rd, 2 to the 63rd), written with
the literals for 2 to the 63rd and 2 to the 64th. -/
def wrap64 (n : Int) : Int :=
  (n + 9223372036854775808) % 18446744073709551616 - 9223372036854775808

theorem wrap64_eq_self (n : Int) (h1 : -9223372036854775808 ≤ n)
    (h2 : n < 9223372036854775808) : wrap64 n = n := by
  unfold wrap64
  omega

/-- `applyEvent` under Go's wrapping `int64` semantics: the updates
`e.balances[ev.Account] -= ev.Amount` and `+= ev.Amount` wrap on
overflow. -/
def applyEventW (e : WalletEngine) : Event → WalletEngine
  | Event.moneyDeducted txid acct amt =>
    { balances := setBalance e.balances acct (wrap64 (lookupBalance e.balances acct - amt)),
      processedTxns := insertTxn e.processedTxns txid }
  | Event.moneyCredited _ acct amt =>
    { e with balances := setBalance e.balances acct (wrap64 (lookupBalance e.balances acct + amt)) }
  | Event.transactionFailed txid _ _ =>
    { e with processedTxns := insertTxn e.processedTxns txid }

/-- `ApplyEvents` under wrapping `int64` balance arithmetic. -/
def ApplyEventsW (e : WalletEngine) (events : List Event) : WalletEngine :=
  events.foldl applyEventW e

/-- One command of the pipeline under wrapping `int64` arithmetic. -/
def processCommandW (e : WalletEngine) (cmd : TransferCommand) :
    WalletEngine × List Event :=
  (ApplyEventsW e (ExecuteWithContext e cmd).2.1, (ExecuteWithContext e cmd).2.1)

/-- A command stream under wrapping `int64` arithmetic. -/
def processCommandsW (e : WalletEngine) : List TransferCommand → WalletEngine × List Event
  | [] => (e, [])
  | cmd :: rest =>
    let r := processCommandW e cmd
    let rr := processCommandsW r.1 rest
    (rr.1, r.2 ++ rr.2)

theorem sumBalances_nonneg (bs : List (String × Int)) (h : allNonneg bs) :
    0 ≤ sumBalances bs := by
  induction bs with
  | nil => simp [sumBalances]
  | cons p ps ih =>
    have hp := h p (by simp)
    have hps := ih (fun q hq => h q (by simp [hq]))
    simp only [sumBalances, List.map_cons, List.sum_cons] at hps ⊢
    omega

theorem lookup_le_sum (bs : List (String × Int)) (a : String) (h : allNonneg bs) :
    lookupBalance bs a ≤ sumBalances bs := by
  induction bs with
  | nil => simp [lookupBalance, sumBalances]
  | cons p ps ih =>
    have hp := h p (by simp)
    have hps : allNonneg ps := fun q hq => h q (by simp [hq])
    have h1 := sumBalances_nonneg ps hps
    have h2 := ih hps
    simp only [lookupBalance, sumBalances, List.map_cons, List.sum_cons] at h1 h2 ⊢
    split
    · omega
    · omega

/-- When every balance is nonnegative and the total fits in an `int64`,
applying any prefix of one command's event batch never wraps: the wrapped
and unbounded runs coincide (the deduction stays within [0, total], the
credit within [amount, total]). -/
theorem applyW_take_eq (e : WalletEngine) (cmd : TransferCommand) (k : Nat)
    (hn : allNonneg e.balances) (hs : sumBalances e.balances ≤ int64Max) :
    ApplyEventsW e (List.take k (ExecuteWithContext e cmd).2.1)
      = ApplyEvents e (List.take k (ExecuteWithContext e cmd).2.1) := by
  have hmax : sumBalances e.balances ≤ 9223372036854775807 := hs
  unfold ExecuteWithContext
  split_ifs with g1 g2 g3 g4
  · cases k <;> rfl
  · cases k <;> simp only [List.take, List.take_nil, ApplyEventsW, ApplyEvents,
      List.foldl, applyEventW, applyEvent]
  · cases k <;> simp only [List.take, List.take_nil, ApplyEventsW, ApplyEvents,
      List.foldl, applyEventW, applyEvent]
  · cases k <;> simp only [List.take, List.take_nil, ApplyEventsW, ApplyEvents,
      List.foldl, applyEventW, applyEvent]
  · have hbal : cmd.amount ≤ lookupBalance e.balances cmd.fromAccount := not_lt.mp g4
    have hpos : 0 < cmd.amount := lt_of_not_ge g2
    have hls := lookup_le_sum e.balances cmd.fromAccount hn
    have hw1 : wrap64 (lookupBalance e.balances cmd.fromAccount - cmd.amount)
        = lookupBalance e.balances cmd.fromAccount - cmd.amount :=
      wrap64_eq_self _ (by omega) (by omega)
    match k with
    | 0 => rfl
    | 1 =>
      simp only [List.take, List.take_nil, ApplyEventsW, ApplyEvents, List.foldl,
        applyEventW, applyEvent, hw1]
    | (n + 2) =>
      have hA1 : allNonneg (setBalance e.balances cmd.fromAccount
          (lookupBalance e.balances cmd.fromAccount - cmd.amount)) :=
        allNonneg_setBalance _ _ _ hn (by omega)
      have hsum1 : sumBalances (setBalance e.balances cmd.fromAccount
            (lookupBalance e.balances cmd.fromAccount - cmd.amount))
          = sumBalances e.balances - cmd.amount := by
        rw [sum_setBalance]
        ring
      have hl1 := lookup_le_sum _ cmd.toAccount hA1
      have hl0 := lookupBalance_nonneg _ cmd.toAccount hA1
      have hw2 : wrap64 (lookupBalance (setBalance e.balances cmd.fromAccount
              (lookupBalance e.balances cmd.fromAccount - cmd.amount)) cmd.toAccount
            + cmd.amount)
          = lookupBalance (setBalance e.balances cmd.fromAccount
              (lookupBalance e.balances cmd.fromAccount - cmd.amount)) cmd.toAccount
            + cmd.amount :=
        wrap64_eq_self _ (by omega) (by omega)
      simp only [List.take, List.take_nil, ApplyEventsW, ApplyEvents, List.foldl,
        applyEventW, applyEvent, hw1, hw2]

/-- Under the same no-wrap conditions a whole command runs identically in
the wrapped and unbounded models. -/
theorem processCommandW_eq (e : WalletEngine) (cmd : TransferCommand)
    (hn : allNonneg e.balances) (hs : sumBalances e.balances ≤ int64Max) :
    processCommandW e cmd = processCommand e cmd := by
  have hk := applyW_take_eq e cmd (ExecuteWithContext e cmd).2.1.length hn hs
  simp only [List.take_length] at hk
  simp only [processCommandW, processCommand, hk]

/-- C6 as stated is refuted on the code: Go's balance arithmetic wraps,
so from the valid all-nonnegative state (a: MaxInt64, b: 1) the fully
validated transfer (b to a, amount 1) wraps a's balance to the negative
MinInt64. -/
theorem balances_nonneg_cex :
    allNonneg (WalletEngine.mk [("a", int64Max), ("b", 1)] []).balances ∧
    ¬ allNonneg (processCommandsW (WalletEngine.mk [("a", int64Max), ("b", 1)] [])
        [TransferCommand.mk "t" "b" "a" 1]).1.balances :=
  ⟨by decide, by decide⟩

/-- C6 (amended): starting from a state with every balance nonnegative
whose total fits in an `int64` (at most MaxInt64), every state reached by
processing any sequence of commands under Go's wrapping `int64` balance
arithmetic has every balance nonnegative, and so does every intermediate
state inside one command (after applying any prefix of the command's
event batch): within that bound no update wraps and the
insufficient-funds rule keeps every deduction at or above zero. -/
theorem balances_nonneg_amended :
    (∀ (e : WalletEngine) (cmds : List TransferCommand),
      allNonneg e.balances → sumBalances e.balances ≤ int64Max →
      allNonneg (processCommandsW e cmds).1.balances) ∧
    (∀ (e : WalletEngine) (cmd : TransferCommand) (k : Nat),
      allNonneg e.balances → sumBalances e.balances ≤ int64Max →
      allNonneg (ApplyEventsW e (List.take k (ExecuteWithContext e cmd).2.1)).balances) := by
  constructor
  · intro e cmds
    induction cmds generalizing e with
    | nil => intro hn _; exact hn
    | cons c rest ih =>
      intro hn hs
      simp only [processCommandsW]
      rw [processCommandW_eq e c hn hs]
      have hsum : sumBalances (processCommand e c).1.balances = sumBalances e.balances :=
        total_processCommand e c
      exact ih _ (allNonneg_processCommand e c hn) (by rw [hsum]; exact hs)
  · intro e cmd k hn hs
    rw [applyW_take_eq e cmd k hn hs]
    exact allNonneg_exec_take e cmd k hn

/-- Witness for `balances_nonneg_amended` at a concrete engine and
command list. -/
theorem balances_nonneg_amended_witness :
    allNonneg (WalletEngine.mk [("a", 30), ("b", 0)] []).balances ∧
    sumBalances (WalletEngine.mk [("a", 30), ("b", 0)] []).balances ≤ int64Max ∧
    allNonneg (processCommandsW (WalletEngine.mk [("a", 30), ("b", 0)] [])
      [TransferCommand.mk "w1" "a" "b" 20,
       TransferCommand.mk "w2" "a" "b" 20]).1.balances :=
  ⟨by decide, by decide,
    balances_nonneg_amended.1 (WalletEngine.mk [("a", 30), ("b", 0)] [])
      [TransferCommand.mk "w1" "a" "b" 20, TransferCommand.mk "w2" "a" "b" 20]
      (by decide) (by decide)⟩

/-- The state after processing a command stream equals the replay of the
log it produced: ExecuteWithContext never mutates state, so the final
state is exactly the fold of applyEvent over the emitted log. -/
theorem processCommands_state (e : WalletEngine) (cmds : List TransferCommand) :
    (processCommands e cmds).1 = ApplyEvents e (processCommands e cmds).2 := by
  induction cmds generalizing e with
  | nil => rfl
  | cons c rest ih =>
    simp only [processCommands]
    rw [ih]
    simp [processCommand, ApplyEvents, List.foldl_append]

/-- C7: replay identity: initializing a fresh engine with the same
pre-existing-balance injection and applying every event of the produced
log in order yields the originating engine's final balances. -/
theorem replay_identity (setters : List (String × Int)) (cmds : List TransferCommand) :
    (InitializeFromEventStore (injectBalances NewWalletEngine setters)
        (processCommands (injectBalances NewWalletEngine setters) cmds).2).balances
      = (processCommands (injectBalances NewWalletEngine setters) cmds).1.balances := by
  rw [processCommands_state]
  rfl

-- The processed-transaction set only ever grows.

theorem mem_processedTxns_applyEvent (e : WalletEngine) (ev : Event) (x : String)
    (h : x ∈ e.processedTxns) : x ∈ (applyEvent e ev).processedTxns := by
  cases ev with
  | moneyDeducted txid acct amt => exact mem_insertTxn_of_mem _ _ _ h
  | moneyCredited txid acct amt => exact h
  | transactionFailed txid acct r => exact mem_insertTxn_of_mem _ _ _ h

theorem mem_processedTxns_applyEvents (e : WalletEngine) (l : List Event) (x : String)
    (h : x ∈ e.processedTxns) : x ∈ (ApplyEvents e l).processedTxns := by
  induction l generalizing e with
  | nil => exact h
  | cons ev rest ih => exact ih _ (mem_processedTxns_applyEvent e ev x h)

theorem mem_processedTxns_processCommands (e : WalletEngine)
    (cmds : List TransferCommand) (x : String) (h : x ∈ e.processedTxns) :
    x ∈ (processCommands e cmds).1.processedTxns := by
  induction cmds generalizing e with
  | nil => exact h
  | cons c rest ih =>
    simp only [processCommands]
    exact ih _ (mem_processedTxns_applyEvents e _ x h)

/-- C8: a business failure permanently consumes its transaction id: once a
command produced a TransactionFailed event and it was applied, any later
command carrying the same transaction id — after arbitrarily many further
commands, which may have remedied the original cause — returns an empty
event vector. -/
theorem failed_consumes_txid (e : WalletEngine) (c : TransferCommand) (r : String)
    (_hfail : (ExecuteWithContext e c).2.1 =
      [Event.transactionFailed c.transactionID c.fromAccount r])
    (cmds : List TransferCommand) (c2 : TransferCommand)
    (hid : c2.transactionID = c.transactionID) :
    (ExecuteWithContext (processCommands (processCommand e c).1 cmds).1 c2).2.1 = [] := by
  have h2 : c.transactionID ∈ (processCommands (processCommand e c).1 cmds).1.processedTxns :=
    mem_processedTxns_processCommands _ cmds _ (txid_mem_after e c)
  rw [exec_duplicate _ c2 (by rw [hid]; exact h2)]

/-- Witness for `failed_consumes_txid`: the transfer (X, a→b, 10) fails
with insufficient funds, a later transfer refills account a, yet retrying
X still yields no events. -/
theorem failed_consumes_txid_witness :
    ((ExecuteWithContext (WalletEngine.mk [("a", 5), ("c", 100)] [])
        (TransferCommand.mk "X" "a" "b" 10)).2.1 =
      [Event.transactionFailed "X" "a" "insufficient funds"]) ∧
    ("X" = "X") ∧
    (ExecuteWithContext
        (processCommands
          (processCommand (WalletEngine.mk [("a", 5), ("c", 100)] [])
            (TransferCommand.mk "X" "a" "b" 10)).1
          [TransferCommand.mk "F" "c" "a" 50]).1
        (TransferCommand.mk "X" "a" "b" 10)).2.1 = [] :=
  ⟨by decide, rfl,
    failed_consumes_txid (WalletEngine.mk [("a", 5), ("c", 100)] [])
      (TransferCommand.mk "X" "a" "b" 10) "insufficient funds" (by decide)
      [TransferCommand.mk "F" "c" "a" 50] (TransferCommand.mk "X" "a" "b" 10) rfl⟩

/-- JSON values: the structured form of the bytes produced by Go's
`encoding/json` (an external standard library, modelled as a tree rather
than a byte string); strings, integers and objects suffice for the wallet
event envelope. -/
inductive JsonValue where
  | str (s : String)
  | num (n : Int)
  | obj (fields : List (String × JsonValue))

/-- `(e Event) GetType`: the type-tag constants of package `domain`. -/
def Event.getType : Event → String
  | Event.moneyDeducted _ _ _ => "MoneyDeducted"
  | Event.moneyCredited _ _ _ => "MoneyCredited"
  | Event.transactionFailed _ _ _ => "TransactionFailed"

/-- `json.Marshal` of an event payload, with the struct's json field
tags (`transaction_id`, `account`, `amount`, `from_account`, `reason`). -/
def marshalEvent : Event → JsonValue
  | Event.moneyDeducted txid acct amt =>
    JsonValue.obj [("transaction_id", JsonValue.str txid),
                   ("account", JsonValue.str acct),
                   ("amount", JsonValue.num amt)]
  | Event.moneyCredited txid acct amt =>
    JsonValue.obj [("transaction_id", JsonValue.str txid),
                   ("account", JsonValue.str acct),
                   ("amount", JsonValue.num amt)]
  | Event.transactionFailed txid fromAcct reason =>
    JsonValue.obj [("transaction_id", JsonValue.str txid),
                   ("from_account", JsonValue.str fromAcct),
                   ("reason", JsonValue.str reason)]

/-- `domain.SerializeEvent`: marshal the payload, then wrap it in the
envelope carrying the type tag and the current timestamp (`time.Now`,
passed in as `now` since it is informational metadata). -/
def SerializeEvent (now : String) (event : Event) : JsonValue :=
  JsonValue.obj [("type", JsonValue.str event.getType),
                 ("timestamp", JsonValue.str now),
                 ("data", marshalEvent event)]

def lookupField : List (String × JsonValue) → String → Option JsonValue
  | [], _ => none
  | p :: ps, k => if p.1 = k then some p.2 else lookupField ps k

/-- Reading a string field the way `json.Unmarshal` fills a Go struct: an
absent field keeps the zero value "", a present non-string is an error. -/
def decodeStrField (fields : List (String × JsonValue)) (k : String) : Option String :=
  match lookupField fields k with
  | none => some ""
  | some (JsonValue.str s) => some s
  | some _ => none

/-- Reading an `int64` field: absent keeps the zero value 0, a present
non-number is an error. -/
def decodeNumField (fields : List (String × JsonValue)) (k : String) : Option Int :=
  match lookupField fields k with
  | none => some 0
  | some (JsonValue.num n) => some n
  | some _ => none

def unmarshalMoneyDeducted : JsonValue → Option Event
  | JsonValue.obj fields => do
    let txid ← decodeStrField fields "transaction_id"
    let acct ← decodeStrField fields "account"
    let amt ← decodeNumField fields "amount"
    pure (Event.moneyDeducted txid acct amt)
  | _ => none

def unmarshalMoneyCredited : JsonValue → Option Event
  | JsonValue.obj fields => do
    let txid ← decodeStrField fields "transaction_id"
    let acct ← decodeStrField fields "account"
    let amt ← decodeNumField fields "amount"
    pure (Event.moneyCredited txid acct amt)
  | _ => none

def unmarshalTransactionFailed : JsonValue → Option Event
  | JsonValue.obj fields => do
    let txid ← decodeStrField fields "transaction_id"
    let fromAcct ← decodeStrField fields "from_account"
    let reason ← decodeStrField fields "reason"
    pure (Event.transactionFailed txid fromAcct reason)
  | _ => none

/-- `domain.DeserializeEvent`: unmarshal the envelope, dispatch on the
type tag to the variant unmarshaller, fail on an unknown tag. -/
def DeserializeEvent (v : JsonValue) : Except String Event :=
  match v with
  | JsonValue.obj fields =>
    match decodeStrField fields "type", lookupField fields "data" with
    | some tag, some data =>
      if tag = "MoneyDeducted" then
        match unmarshalMoneyDeducted data with
        | some e => Except.ok e
        | none => Except.error "failed to unmarshal MoneyDeducted"
      else if tag = "MoneyCredited" then
        match unmarshalMoneyCredited data with
        | some e => Except.ok e
        | none => Except.error "failed to unmarshal MoneyCredited"
      else if tag = "TransactionFailed" then
        match unmarshalTransactionFailed data with
        | some e => Except.ok e
        | none => Except.error "failed to unmarshal TransactionFailed"
      else
        Except.error ("unknown event type: " ++ tag)
    | _, _ => Except.error "failed to unmarshal envelope"
  | _ => Except.error "failed to unmarshal envelope"

/-- C9: codec round-trip: for every event of the three variants, and any
envelope timestamp, deserializing the serialization returns the event
unchanged (the timestamp is metadata and does not affect the result). -/
theorem codec_roundtrip (event : Event) (now : String) :
    DeserializeEvent (SerializeEvent now event) = Except.ok event := by
  cases event <;> rfl

/-- `(s *EventStore) AppendBatch`, modelled on the store file contents.
The file is the list of lines written so far; `ser` stands for
`domain.SerializeEvent`, which is fallible (it returns `([]byte, error)`
over the open `domain.Event` interface); a successful `file.Write`
appends the serialized line to the file, and `file.Sync` succeeds.
Mirroring the Go loop, each event is serialized and written one at a
time, returning on the first serialization error; the boolean is `true`
exactly when no error was returned. -/
def AppendBatch (ser : Event → Option String) :
    List String → List Event → List String × Bool
  | file, [] => (file, true)
  | file, ev :: rest =>
    match ser ev with
    | none => (file, false)
    | some line => AppendBatch ser (file ++ [line]) rest

/-- A serializer failing exactly on TransactionFailed events (in Go: an
`Event` implementation whose `json.Marshal` errors). -/
def serFailsOnFailed : Event → Option String
  | Event.transactionFailed _ _ _ => none
  | ev => some ev.getType

/-- C5 is refuted on the code: for the two-event batch whose second event
fails to serialize, AppendBatch does return an error, but the first
event's bytes have already been written to the store file — the batch is
not atomic with respect to serialization failures. -/
theorem appendBatch_not_atomic :
    AppendBatch serFailsOnFailed []
        [Event.moneyDeducted "t" "a" 5, Event.transactionFailed "t" "a" "r"]
      = (["MoneyDeducted"], false) ∧ (["MoneyDeducted"] : List String) ≠ [] :=
  ⟨rfl, by decide⟩
